import Mathlib

/-!
Verification development for the SL-XG daily-bar ingestion and scoring
pipeline.  The Python source is shallowly embedded:

* `database.py` / `db_manager.py` : a bar store keyed by
  (ts_code, trade_date) with PostgreSQL `ON CONFLICT DO NOTHING` writes,
  modelled by `insert_on_conflict_nothing` / `save_data` over a list of rows.
* `data_fetcher.py` : `fetch_daily_data` (3 attempts, 5 s backoff, empty
  response terminal) and `backfill_data` (calendar window minus the dates
  already stored, fetched ascending).
* `strategy.py` : `WeightedScoringStrategy.calculate_indicators`
  (pandas group-by ts_code, rolling windows) and `calculate_scores`
  (two veto gates then weighted sub-scores), plus `run`.

Machine floats are embedded as `ℚ`; pandas `NaN` cells are `Option ℚ`
(`none` = NaN, and every comparison against `none` is `false`, matching
NaN comparison semantics).  Dates are day numbers (`ℕ`).
-/

-- Batteries marks the `Rat` field operations `@[irreducible]`; restore
-- the default so that concrete runs of the embedded pipeline evaluate
-- with `decide` / `rfl`.
attribute [local semireducible] Rat.add Rat.mul Rat.sub Rat.inv

set_option autoImplicit false

namespace SLXG

/-! ### Generic list helpers -/

/-- Collect a list of optional values; `none` (NaN) poisons the whole
window, as in pandas `rolling` with the default `min_periods`. -/
def allSome : List (Option ℚ) → Option (List ℚ)
  | [] => some []
  | none :: _ => none
  | some a :: l => (allSome l).map (fun vs => a :: vs)

/-- Minimum of a list of rationals (0 for the empty list, never used there). -/
def listMin : List ℚ → ℚ
  | [] => 0
  | a :: l => l.foldl min a

/-- Arithmetic mean of a list of rationals. -/
def listMean (vs : List ℚ) : ℚ := vs.sum / (vs.length : ℚ)

/-! ### Data model (`database.py`, class `StockDaily`)

One instrument's OHLCV record for one trading date.  The composite
primary key is (ts_code, trade_date).  `open` is a Lean keyword, so the
column is named `open_`. -/

structure Bar where
  ts_code : String
  trade_date : ℕ
  open_ : ℚ
  high : ℚ
  low : ℚ
  close : ℚ
  vol : ℚ
deriving DecidableEq, Repr, Inhabited

/-- The (ts_code, trade_date) primary key of a bar. -/
def Bar.key (b : Bar) : String × ℕ := (b.ts_code, b.trade_date)

/-- The store invariant: no two rows share a (ts_code, trade_date) key. -/
def keysNodup (t : List Bar) : Prop := (t.map Bar.key).Nodup

instance keysNodupDec (t : List Bar) : Decidable (keysNodup t) :=
  inferInstanceAs (Decidable (t.map Bar.key).Nodup)

/-! ### Date-ascending insertion sort

`calculate_indicators` starts with
`df.sort_values(['ts_code','trade_date'])` and then groups by `ts_code`;
each group is therefore that instrument's rows sorted ascending by date.
We model the per-group ordering with a stable insertion sort by date
(with the store's unique-key invariant the sorted order is unique, so
the choice of sorting algorithm is immaterial). -/

def insertByDate (b : Bar) : List Bar → List Bar
  | [] => [b]
  | c :: l => if b.trade_date ≤ c.trade_date then b :: c :: l else c :: insertByDate b l

def sortByDate : List Bar → List Bar
  | [] => []
  | b :: l => insertByDate b (sortByDate l)

/-! ### Indicator cells (`strategy.py`, `calculate_indicators`)

Every derived column of the pandas frame is modelled per instrument
group as a function from the row position to an optional value.
`bars.get? i` is `none` outside the series, which never happens at the
positions the frame actually holds. -/

/-- `df['close']` within one instrument group. -/
def closeOpt (bars : List Bar) (i : ℕ) : Option ℚ := (bars.get? i).map Bar.close

/-- `df['volume']` within one instrument group (the code aliases
`vol` to `volume` when the latter is absent, which is the case for
frames loaded from the store). -/
def volOpt (bars : List Bar) (i : ℕ) : Option ℚ := (bars.get? i).map Bar.vol

/-- `df['amplitude'] = (high - low) / low * 100` (pointwise). -/
def ampOpt (bars : List Bar) (i : ℕ) : Option ℚ :=
  (bars.get? i).map (fun b => (b.high - b.low) / b.low * 100)

/-- `x.shift(1)`: the previous cell, NaN at position 0. -/
def shiftCell (f : ℕ → Option ℚ) (i : ℕ) : Option ℚ :=
  if i = 0 then none else f (i - 1)

/-- `x.rolling(w).agg`: aggregate of the `w` cells ending at position `i`;
NaN until `w` observations exist or when the window contains a NaN
(pandas default `min_periods = w`). -/
def rollingCell (agg : List ℚ → ℚ) (w : ℕ) (f : ℕ → Option ℚ) (i : ℕ) : Option ℚ :=
  if w ≤ i + 1 then
    (allSome ((List.range w).map (fun j => f (i + 1 - w + j)))).map agg
  else none

/-- `x.pct_change() * 100`: NaN at position 0. -/
def pctCell (f : ℕ → Option ℚ) (i : ℕ) : Option ℚ :=
  if i = 0 then none
  else
    match f i, f (i - 1) with
    | some a, some b => some ((a - b) / b * 100)
    | _, _ => none

/-! ### The augmented frame row -/

/-- One row of the frame returned by `calculate_indicators`: the bar
columns plus the derived indicator columns (NaN-able, hence `Option`). -/
structure Row where
  ts_code : String
  trade_date : ℕ
  open_ : ℚ
  high : ℚ
  low : ℚ
  close : ℚ
  vol : ℚ
  ma_60 : Option ℚ
  vol_ma20 : Option ℚ
  prev_vol_min_20 : Option ℚ
  amplitude : Option ℚ
  amp_ma15 : Option ℚ
  pct_change : Option ℚ
  distance_ma60 : Option ℚ
  vol_ratio : Option ℚ
deriving DecidableEq, Repr, Inhabited

/-- The augmented row at position `i` of one instrument's date-sorted
group, mirroring the column formulas of `calculate_indicators`:
`ma_60 = close.rolling(60).mean()`,
`vol_ma20 = volume.rolling(20).mean()`,
`prev_vol_min_20 = volume.shift(1).rolling(20).min()`,
`amplitude = (high - low)/low*100`, `amp_ma15 = amplitude.rolling(15).mean()`,
`pct_change = close.pct_change()*100`,
`distance_ma60 = (close - ma_60)/ma_60*100`, `vol_ratio = volume/vol_ma20`. -/
def rowAt (bars : List Bar) (i : ℕ) : Row :=
  let b := bars.getD i default
  let m := rollingCell listMean 60 (closeOpt bars) i
  let vm := rollingCell listMean 20 (volOpt bars) i
  { ts_code := b.ts_code
    trade_date := b.trade_date
    open_ := b.open_
    high := b.high
    low := b.low
    close := b.close
    vol := b.vol
    ma_60 := m
    vol_ma20 := vm
    prev_vol_min_20 := rollingCell listMin 20 (shiftCell (volOpt bars)) i
    amplitude := ampOpt bars i
    amp_ma15 := rollingCell listMean 15 (ampOpt bars) i
    pct_change := pctCell (closeOpt bars) i
    distance_ma60 := m.map (fun mv => (b.close - mv) / mv * 100)
    vol_ratio := vm.map (fun v => b.vol / v) }

/-- The augmented frame of one instrument's date-sorted group. -/
def indicatorsGroup (bars : List Bar) : List Row :=
  (List.range bars.length).map (rowAt bars)

/-- The distinct instrument codes of a frame (first-appearance order;
pandas emits groups in sorted code order, but no downstream computation
observes the relative order of rows of different instruments). -/
def frameCodes (f : List Bar) : List String := (f.map Bar.ts_code).dedup

/-- One instrument's rows of the frame, date ascending — the series the
pandas group-by hands to each rolling `transform`. -/
def groupSeries (f : List Bar) (c : String) : List Bar :=
  sortByDate (f.filter (fun b => b.ts_code == c))

/-- `calculate_indicators`: sort by (ts_code, trade_date), group by
ts_code, and compute every rolling column inside its own group. -/
def calculate_indicators (f : List Bar) : List Row :=
  (frameCodes f).flatMap (fun c => indicatorsGroup (groupSeries f c))

/-- Read the single augmented row of instrument `c` at date `T` out of
the frame produced by `calculate_indicators` (the store invariant makes
it unique when present). -/
def getRow (f : List Bar) (c : String) (T : ℕ) : Option Row :=
  (calculate_indicators f).find? (fun r => r.ts_code == c && r.trade_date == T)

/-! ### Scoring (`strategy.py`, `calculate_scores`)

The Python function builds a dict incrementally and returns early from
the veto gates, so which keys exist depends on the path taken; absent
keys are `none` here.  Key names translate as: 总分 `total`,
淘汰原因 `reason`, 最低量分 `volScore`, 下跌分 `dropScore`,
核心条件分 `coreScore`, 趋势分 `trendScore`, 波动分 `volatilityScore`,
价格分 `priceScore`, 额外分 `extraScore`, `_ratio_val` `ratioVal`. -/

structure Scores where
  total : ℚ
  reason : Option String
  volScore : Option ℚ
  dropScore : Option ℚ
  coreScore : Option ℚ
  trendScore : Option ℚ
  volatilityScore : Option ℚ
  priceScore : Option ℚ
  extraScore : Option ℚ
  ratioVal : Option ℚ
deriving DecidableEq, Repr, Inhabited

/-- An early-return scores dict holding only 总分 (and possibly 淘汰原因). -/
def Scores.veto (reason : Option String) : Scores :=
  { total := 0, reason := reason, volScore := none, dropScore := none,
    coreScore := none, trendScore := none, volatilityScore := none,
    priceScore := none, extraScore := none, ratioVal := none }

/-- A. 最低量分 (40分): graded by how far the day's volume undercuts the
prior 20-day minimum (the ratio is below 0.8 whenever this runs). -/
def volScoreOf (ratio : ℚ) : ℚ :=
  if ratio ≤ 1/2 then 40
  else if ratio ≤ 3/5 then 38
  else if ratio ≤ 7/10 then 35
  else 30

/-- B. 下跌幅度分 (10分); a NaN `pct_change` matches no branch. -/
def dropScoreOf : Option ℚ → ℚ
  | some pct =>
    if -2 ≤ pct ∧ pct < 0 then 10
    else if -4 ≤ pct ∧ pct < -2 then 8
    else if pct < -4 then 5
    else 0
  | none => 0

/-- 2. 趋势条件 (15分), guarded by `pd.notnull(distance_ma60)`. -/
def trendScoreOf : Option ℚ → ℚ
  | some d =>
    if d < 0 then
      if 10 ≤ |d| then 15 else if 5 ≤ |d| then 12 else 8
    else 10
  | none => 0

/-- 3. 波动条件 (10分), guarded by `pd.notnull(amp_ma15)`. -/
def volatilityScoreOf : Option ℚ → ℚ
  | some a => if a < 3 then 10 else if a < 9/2 then 6 else 3
  | none => 0

/-- 4. 价格条件 (10分). -/
def priceScoreOf (close : ℚ) : ℚ :=
  if 3 < close ∧ close ≤ 30 then 10
  else if 30 < close ∧ close ≤ 80 then 5
  else 0

/-- 5. 额外加分 (15分, capped): small body, long lower shadow, tiny
volume ratio. -/
def extraScoreOf (bodySize lowerShadow : ℚ) (vr : Option ℚ) : ℚ :=
  min 15 ((if bodySize < 1 then 5 else 0)
    + (if lowerShadow > 3/2 then 5 else 0)
    + (match vr with
       | some v => if v < 3/5 then (5:ℚ) else 0
       | none => 0))

/-- `WeightedScoringStrategy.calculate_scores`.  Two veto gates
(non-green candle; volume not below 80 % of the prior-20-day minimum,
with a NaN prior minimum also vetoing), then the weighted sub-scores.
Comparisons against a NaN (`none`) cell are false, as in pandas. -/
def calculate_scores (r : Row) : Scores :=
  -- 条件1: close < open required (否则 '非绿盘')
  if r.open_ ≤ r.close then Scores.veto (some "非绿盘")
  else
    match r.prev_vol_min_20 with
    | none => Scores.veto none   -- insufficient history: bare {'总分': 0}
    | some pv =>
      -- 条件2: volume < prev_vol_min_20 * 0.8 required
      if pv * (4/5) ≤ r.vol then Scores.veto (some "量能未达极致缩量")
      else
        let ratio := r.vol / pv
        let volScore := volScoreOf ratio
        let dropScore := dropScoreOf r.pct_change
        let trendScore := trendScoreOf r.distance_ma60
        let volatilityScore := volatilityScoreOf r.amp_ma15
        let priceScore := priceScoreOf r.close
        let extraScore := extraScoreOf (|r.close - r.open_| / r.open_ * 100)
          ((min r.open_ r.close - r.low) / r.low * 100) r.vol_ratio
        let total := volScore + dropScore + trendScore + volatilityScore
          + priceScore + extraScore
        { total := min 100 total
          reason := none
          volScore := some volScore
          dropScore := some dropScore
          coreScore := some (volScore + dropScore)
          trendScore := some trendScore
          volatilityScore := some volatilityScore
          priceScore := some priceScore
          extraScore := some extraScore
          ratioVal := some ratio }

/-- `self.params['min_score']` of `WeightedScoringStrategy`. -/
def minScore : ℚ := 60

/-- Stable descending insertion by 总分, for
`sort_values('总分', ascending=False)` (relative order of equal totals
is not part of any contract). -/
def insertByScore (p : Row × Scores) : List (Row × Scores) → List (Row × Scores)
  | [] => [p]
  | q :: l =>
    if q.2.total < p.2.total then p :: q :: l else q :: insertByScore p l

def sortByScoreDesc : List (Row × Scores) → List (Row × Scores)
  | [] => []
  | p :: l => insertByScore p (sortByScoreDesc l)

/-- `WeightedScoringStrategy.run`: compute indicators, restrict to the
most recent trade date, score each row, keep totals at or above
`min_score`, sort by descending total.  (The cosmetic `reason` display
string built at the end is presentation only and not modelled.) -/
def run (f : List Bar) : List (Row × Scores) :=
  if f.isEmpty then []
  else
    let rows := calculate_indicators f
    let lastDate := (rows.map Row.trade_date).foldl Nat.max 0
    let current := rows.filter (fun r => r.trade_date == lastDate)
    let results := (current.map (fun r => (r, calculate_scores r))).filter
      (fun p => minScore ≤ p.2.total)
    sortByScoreDesc results

/-! ### Store writes (`db_manager.py`)

The table is a list of rows; `ON CONFLICT (ts_code, trade_date) DO
NOTHING` inserts a row only when its key is absent.  `save_data` feeds
the batch row by row (PostgreSQL processes a multi-row `INSERT ... ON
CONFLICT DO NOTHING` in row order, later intra-batch duplicates being
skipped too). -/

/-- Key equality test, `ts_code` and `trade_date` both matching. -/
def matchKey (code : String) (date : ℕ) (b : Bar) : Bool :=
  b.ts_code == code && b.trade_date == date

/-- Does the table already hold a row with this key? -/
def hasKey (t : List Bar) (code : String) (date : ℕ) : Bool :=
  t.any (matchKey code date)

/-- Insert one row, skipping silently on a conflicting key. -/
def insert_on_conflict_nothing (t : List Bar) (r : Bar) : List Bar :=
  if hasKey t r.ts_code r.trade_date then t else t ++ [r]

/-- `save_data`: write a batch with conflict-skipping semantics. -/
def save_data (t : List Bar) (df : List Bar) : List Bar :=
  df.foldl insert_on_conflict_nothing t

/-- The stored row for a key, if any. -/
def rowFor (t : List Bar) (code : String) (date : ℕ) : Option Bar :=
  t.find? (matchKey code date)

/-- Number of stored rows with a key. -/
def keyCount (t : List Bar) (code : String) (date : ℕ) : ℕ :=
  (t.filter (matchKey code date)).length

/-! ### Upstream fetch (`data_fetcher.py`, `fetch_daily_data`)

The upstream provider's behaviour on the `attempt`-th call is an oracle
`resp : ℕ → FetchOutcome`.  `fetch_daily_data` yields the trace of
externally visible events; the Python function catches every exception
inside the loop and always returns `None`, so the embedding is a total
function into traces. -/

inductive FetchOutcome where
  | err                      -- transport/provider exception
  | empty                    -- successful but empty frame (holiday)
  | data (rows : List Bar)   -- successful non-empty frame
deriving DecidableEq, Repr

inductive FetchEvent where
  | call (attempt : ℕ)       -- one upstream request
  | sleep5                   -- `time.sleep(5)` between retries
  | save (rows : List Bar)   -- `save_data(...)` write-through
deriving DecidableEq, Repr

/-- The retry loop of `fetch_daily_data`: `attempt` is the 0-based
attempt index, `remaining` the attempts left (`max_retries - attempt`).
An empty frame returns at once; data is saved then returns; an error
sleeps 5 s and retries unless this was the last attempt, in which case
the failure is only reported. -/
def fetchFrom (resp : ℕ → FetchOutcome) : ℕ → ℕ → List FetchEvent
  | _, 0 => []
  | a, remaining + 1 =>
    FetchEvent.call a ::
      match resp a with
      | .empty => []
      | .data rows => [FetchEvent.save rows]
      | .err =>
        if remaining ≠ 0 then FetchEvent.sleep5 :: fetchFrom resp (a + 1) remaining
        else []

/-- `fetch_daily_data` with `max_retries = 3` (the module-level client
`pro` is assumed configured; with no client the function is a no-op). -/
def fetch_daily_data (resp : ℕ → FetchOutcome) : List FetchEvent :=
  fetchFrom resp 0 3

def isCall : FetchEvent → Bool
  | .call _ => true
  | _ => false

def isSleep : FetchEvent → Bool
  | .sleep5 => true
  | _ => false

def isSave : FetchEvent → Bool
  | .save _ => true
  | _ => false

def callCount (tr : List FetchEvent) : ℕ := (tr.filter isCall).length

def sleepCount (tr : List FetchEvent) : ℕ := (tr.filter isSleep).length

/-! ### Gap reconciliation (`data_fetcher.py`, `backfill_data`) -/

/-- Outcome of the presence query
`SELECT DISTINCT trade_date FROM stock_daily WHERE trade_date >= start`:
either the stored dates or a store failure. -/
inductive StoreResult where
  | ok (dates : List ℕ)
  | err
deriving DecidableEq, Repr

/-- The dates the presence query reports: the distinct stored dates at
or after `start`; on a store failure the exception is caught and the
result treated as empty (`print(... , "assuming empty")`). -/
def presentDates (store : StoreResult) (start : ℕ) : List ℕ :=
  match store with
  | .ok ds => (ds.filter (fun d => start ≤ d)).dedup
  | .err => []

/-- `pd.date_range(today - lookback, today)`: every calendar day of the
window, ascending. -/
def dateWindow (today lookback : ℕ) : List ℕ :=
  List.range' (today - lookback) (lookback + 1)

/-- Ascending insertion sort on dates (`missing_dates.sort()`). -/
def insertNat (d : ℕ) : List ℕ → List ℕ
  | [] => [d]
  | e :: l => if d ≤ e then d :: e :: l else e :: insertNat d l

def sortNat : List ℕ → List ℕ
  | [] => []
  | d :: l => insertNat d (sortNat l)

/-- `backfill_data`: compute the candidate window, subtract the dates
already present, sort ascending, and fetch each missing date once
(`resp d` is date `d`'s upstream oracle).  Every exception inside the
body is caught, so the embedding always returns `.ok`; the `Except`
codomain records that the Python function's only way to raise would be
an uncaught exception, which does not exist. -/
def backfill_data (today lookback : ℕ) (store : StoreResult)
    (resp : ℕ → ℕ → FetchOutcome) : Except String (List (ℕ × List FetchEvent)) :=
  let target := dateWindow today lookback
  let existing := presentDates store (today - lookback)
  let missing := sortNat (target.filter (fun d => !(existing.contains d)))
  .ok (missing.map (fun d => (d, fetch_daily_data (resp d))))

/-! ## Indicator-cell lemmas -/

lemma allSome_map_some {α : Type} (g : α → ℚ) (l : List α) :
    allSome (l.map (fun x => some (g x))) = some (l.map g) := by
  induction l with
  | nil => rfl
  | cons a l ih => simp [allSome, ih]

/-- A rolling window only reads cells at or before its own position. -/
lemma rollingCell_congr {agg : List ℚ → ℚ} {w : ℕ} {f g : ℕ → Option ℚ}
    {i : ℕ} (h : ∀ j ≤ i, f j = g j) :
    rollingCell agg w f i = rollingCell agg w g i := by
  unfold rollingCell
  by_cases hw : w ≤ i + 1
  · rw [if_pos hw, if_pos hw]
    have : (List.range w).map (fun j => f (i + 1 - w + j)) =
        (List.range w).map (fun j => g (i + 1 - w + j)) := by
      refine List.map_congr_left (fun j hj => ?_)
      have hj' : j < w := List.mem_range.1 hj
      exact h _ (by omega)
    rw [this]
  · rw [if_neg hw, if_neg hw]

lemma shiftCell_congr {f g : ℕ → Option ℚ} {i : ℕ}
    (h : ∀ j ≤ i, f j = g j) : ∀ k ≤ i, shiftCell f k = shiftCell g k := by
  intro k hk
  unfold shiftCell
  by_cases h0 : k = 0
  · simp [h0]
  · rw [if_neg h0, if_neg h0, h _ (by omega)]

lemma pctCell_congr {f g : ℕ → Option ℚ} {i : ℕ}
    (h : ∀ j ≤ i, f j = g j) : pctCell f i = pctCell g i := by
  unfold pctCell
  by_cases h0 : i = 0
  · simp [h0]
  · rw [if_neg h0, if_neg h0, h _ le_rfl, h _ (by omega)]

/-- Bar columns agree on the shared positions of a frame and its
extension. -/
lemma closeOpt_append {bars ext : List Bar} {j : ℕ} (h : j < bars.length) :
    closeOpt (bars ++ ext) j = closeOpt bars j := by
  unfold closeOpt
  rw [List.get?_append h]

lemma volOpt_append {bars ext : List Bar} {j : ℕ} (h : j < bars.length) :
    volOpt (bars ++ ext) j = volOpt bars j := by
  unfold volOpt
  rw [List.get?_append h]

lemma ampOpt_append {bars ext : List Bar} {j : ℕ} (h : j < bars.length) :
    ampOpt (bars ++ ext) j = ampOpt bars j := by
  unfold ampOpt
  rw [List.get?_append h]

/-- No look-ahead at the row level: the augmented row at position `i`
ignores every bar after position `i`. -/
lemma rowAt_append (bars ext : List Bar) {i : ℕ} (h : i < bars.length) :
    rowAt (bars ++ ext) i = rowAt bars i := by
  have hb : (bars ++ ext).getD i default = bars.getD i default := by
    rw [List.getD_eq_getElem?_getD, List.getD_eq_getElem?_getD,
      List.getElem?_append_left h]
  have hc : ∀ j ≤ i, closeOpt (bars ++ ext) j = closeOpt bars j :=
    fun j hj => closeOpt_append (lt_of_le_of_lt hj h)
  have hv : ∀ j ≤ i, volOpt (bars ++ ext) j = volOpt bars j :=
    fun j hj => volOpt_append (lt_of_le_of_lt hj h)
  have ha : ∀ j ≤ i, ampOpt (bars ++ ext) j = ampOpt bars j :=
    fun j hj => ampOpt_append (lt_of_le_of_lt hj h)
  unfold rowAt
  rw [hb, rollingCell_congr hc, rollingCell_congr hv,
    rollingCell_congr (shiftCell_congr hv), rollingCell_congr ha,
    pctCell_congr hc, ha i le_rfl]

lemma indicatorsGroup_getD {bars : List Bar} {i : ℕ} (h : i < bars.length) :
    (indicatorsGroup bars).getD i default = rowAt bars i := by
  unfold indicatorsGroup
  rw [List.getD_eq_getElem?_getD, List.getElem?_map, List.getElem?_range h]
  rfl

lemma indicatorsGroup_length (bars : List Bar) :
    (indicatorsGroup bars).length = bars.length := by
  simp [indicatorsGroup]

/-- Members of an instrument's augmented frame are exactly the in-range
`rowAt` values. -/
lemma mem_indicatorsGroup {bars : List Bar} {r : Row} :
    r ∈ indicatorsGroup bars ↔ ∃ i < bars.length, r = rowAt bars i := by
  unfold indicatorsGroup
  constructor
  · intro hr
    rcases List.mem_map.1 hr with ⟨i, hi, rfl⟩
    exact ⟨i, List.mem_range.1 hi, rfl⟩
  · rintro ⟨i, hi, rfl⟩
    exact List.mem_map.2 ⟨i, List.mem_range.2 hi, rfl⟩

/-- The characteristic equation of the `prev_vol_min_20` column: at
position `i` of an instrument's date-sorted series it is the minimum of
the 20 volumes immediately before `i`, and NaN when fewer than 20
prior observations exist. -/
lemma prevVolMin_eq {bars : List Bar} {i : ℕ} (h : i < bars.length) :
    rollingCell listMin 20 (shiftCell (volOpt bars)) i =
      if 20 ≤ i then
        some (listMin ((List.range 20).map
          (fun j => (bars.getD (i - 20 + j) default).vol)))
      else none := by
  by_cases h20 : 20 ≤ i
  · rw [if_pos h20]
    unfold rollingCell
    rw [if_pos (by omega)]
    have hcells : (List.range 20).map
        (fun j => shiftCell (volOpt bars) (i + 1 - 20 + j)) =
        (List.range 20).map
          (fun j => some ((bars.getD (i - 20 + j) default).vol)) := by
      refine List.map_congr_left (fun j hj => ?_)
      have hj' : j < 20 := List.mem_range.1 hj
      have hne : i + 1 - 20 + j ≠ 0 := by omega
      have hidx : i + 1 - 20 + j - 1 = i - 20 + j := by omega
      have hlt : i - 20 + j < bars.length := by omega
      rw [shiftCell, if_neg hne, hidx, volOpt,
        List.get?_eq_getElem?, List.getElem?_eq_getElem hlt,
        List.getD_eq_getElem?_getD, List.getElem?_eq_getElem hlt]
      rfl
    rw [hcells, allSome_map_some]
    rfl
  · rw [if_neg h20]
    unfold rollingCell
    by_cases h19 : 20 ≤ i + 1
    · -- exactly 19 prior observations: the shifted cell at the window
      -- head is position 0, i.e. NaN
      have hi19 : i = 19 := by omega
      subst hi19
      rw [if_pos h19]
      rw [List.range_succ_eq_map, List.map_cons]
      simp [shiftCell, allSome]
    · rw [if_neg h19]

/-- The `amp_ma15` column is available from position 14 on (amplitude
itself is defined at every position). -/
lemma ampMa15_some {bars : List Bar} {i : ℕ} (h : i < bars.length)
    (h14 : 14 ≤ i) :
    ∃ a, rollingCell listMean 15 (ampOpt bars) i = some a := by
  unfold rollingCell
  rw [if_pos (by omega)]
  have hcells : (List.range 15).map (fun j => ampOpt bars (i + 1 - 15 + j)) =
      (List.range 15).map (fun j =>
        some (((bars.getD (i + 1 - 15 + j) default).high -
          (bars.getD (i + 1 - 15 + j) default).low) /
            (bars.getD (i + 1 - 15 + j) default).low * 100)) := by
    refine List.map_congr_left (fun j hj => ?_)
    have hj' : j < 15 := List.mem_range.1 hj
    have hlt : i + 1 - 15 + j < bars.length := by omega
    rw [ampOpt, List.get?_eq_getElem?, List.getElem?_eq_getElem hlt,
      List.getD_eq_getElem?_getD, List.getElem?_eq_getElem hlt]
    rfl
  rw [hcells, allSome_map_some]
  exact ⟨_, rfl⟩

/-! ## Concrete frames used by the witnesses and counterexamples -/

/-- A flat all-10 bar of instrument "X" with volume 100. -/
def flatBar (d : ℕ) : Bar :=
  { ts_code := "X", trade_date := d, open_ := 10, high := 10, low := 10,
    close := 10, vol := 100 }

/-- A green (close < open), sharply volume-shrunk closing bar. -/
def shrinkBar (d : ℕ) : Bar :=
  { ts_code := "X", trade_date := d, open_ := 10, high := 10, low := 99/10,
    close := 199/20, vol := 40 }

/-- 69 bars of one instrument: 68 flat days then the shrunk green day. -/
def frame69 : List Bar := ((List.range 68).map flatBar) ++ [shrinkBar 68]

/-- 21 bars: 20 flat days then the shrunk green day. -/
def frame21 : List Bar := ((List.range 20).map flatBar) ++ [shrinkBar 20]

/-- 20 bars: 19 flat days then the shrunk green day. -/
def frame20 : List Bar := ((List.range 19).map flatBar) ++ [shrinkBar 19]

/-! ## Scoring-component lemmas -/

lemma volScoreOf_mem (ratio : ℚ) :
    volScoreOf ratio = 30 ∨ volScoreOf ratio = 35 ∨
      volScoreOf ratio = 38 ∨ volScoreOf ratio = 40 := by
  unfold volScoreOf
  split_ifs <;> simp

lemma volScoreOf_ge (ratio : ℚ) : 30 ≤ volScoreOf ratio := by
  unfold volScoreOf
  split_ifs <;> norm_num

lemma dropScoreOf_nonneg (p : Option ℚ) : 0 ≤ dropScoreOf p := by
  rcases p with _ | pct <;> unfold dropScoreOf <;> try norm_num
  split_ifs <;> norm_num

lemma trendScoreOf_nonneg (p : Option ℚ) : 0 ≤ trendScoreOf p := by
  rcases p with _ | d <;> unfold trendScoreOf <;> try norm_num
  split_ifs <;> norm_num

lemma volatilityScoreOf_ge_three (a : ℚ) : 3 ≤ volatilityScoreOf (some a) := by
  simp only [volatilityScoreOf]
  split_ifs <;> norm_num

lemma priceScoreOf_nonneg (c : ℚ) : 0 ≤ priceScoreOf c := by
  unfold priceScoreOf
  split_ifs <;> norm_num

lemma extraScoreOf_nonneg (b s : ℚ) (vr : Option ℚ) :
    0 ≤ extraScoreOf b s vr := by
  rcases vr with _ | v <;> simp only [extraScoreOf] <;>
    refine le_min (by norm_num) ?_ <;> split_ifs <;> norm_num

/-- `calculate_scores` on a row passing both veto gates: the full
weighted record. -/
lemma calculate_scores_pass {r : Row} {pv : ℚ}
    (hgreen : r.close < r.open_) (hprev : r.prev_vol_min_20 = some pv)
    (hvol : r.vol < pv * (4/5)) :
    calculate_scores r =
      { total := min 100 (volScoreOf (r.vol / pv) + dropScoreOf r.pct_change
          + trendScoreOf r.distance_ma60 + volatilityScoreOf r.amp_ma15
          + priceScoreOf r.close
          + extraScoreOf (|r.close - r.open_| / r.open_ * 100)
              ((min r.open_ r.close - r.low) / r.low * 100) r.vol_ratio)
        reason := none
        volScore := some (volScoreOf (r.vol / pv))
        dropScore := some (dropScoreOf r.pct_change)
        coreScore := some (volScoreOf (r.vol / pv) + dropScoreOf r.pct_change)
        trendScore := some (trendScoreOf r.distance_ma60)
        volatilityScore := some (volatilityScoreOf r.amp_ma15)
        priceScore := some (priceScoreOf r.close)
        extraScore := some (extraScoreOf (|r.close - r.open_| / r.open_ * 100)
          ((min r.open_ r.close - r.low) / r.low * 100) r.vol_ratio)
        ratioVal := some (r.vol / pv) } := by
  rw [calculate_scores, if_neg (not_le.2 hgreen), hprev]
  dsimp only
  rw [if_neg (not_le.2 hvol)]

/-- A row with a NaN `prev_vol_min_20` always totals 0. -/
lemma calculate_scores_total_zero_of_prev_none {r : Row}
    (hprev : r.prev_vol_min_20 = none) : (calculate_scores r).total = 0 := by
  by_cases h : r.open_ ≤ r.close
  · simp [calculate_scores, if_pos h, Scores.veto]
  · simp [calculate_scores, if_neg h, hprev, Scores.veto]

/-! ## Score bounds for gate-passing rows (claim C10) -/

/-- C10.  Every row of an indicator frame (over bars with positive lows,
per the data model) that passes both veto gates — green candle, and
volume strictly below 80 % of a non-NaN prior-20-day minimum — gets a
volume sub-score in {30, 35, 38, 40}, never below 30, and a total score
between 33 and 100 inclusive. -/
theorem C10_gate_passing_score_bounds (f : List Bar) (r : Row) (pv : ℚ)
    (hlow : ∀ b ∈ f, 0 < b.low)
    (hr : r ∈ calculate_indicators f)
    (hgreen : r.close < r.open_)
    (hprev : r.prev_vol_min_20 = some pv)
    (hvol : r.vol < pv * (4/5)) :
    ((calculate_scores r).volScore = some 30 ∨
      (calculate_scores r).volScore = some 35 ∨
      (calculate_scores r).volScore = some 38 ∨
      (calculate_scores r).volScore = some 40) ∧
    33 ≤ (calculate_scores r).total ∧ (calculate_scores r).total ≤ 100 := by
  obtain ⟨c, hc, hr'⟩ := List.mem_flatMap.1 hr
  obtain ⟨i, hi, rfl⟩ := mem_indicatorsGroup.1 hr'
  -- the non-NaN shrink gate forces at least 20 prior bars, so the
  -- 15-period amplitude mean is available and volatility scores ≥ 3
  have h20 : 20 ≤ i := by
    by_contra h20
    have hnone : (rowAt (groupSeries f c) i).prev_vol_min_20 = none := by
      have h := prevVolMin_eq hi
      rw [if_neg h20] at h
      exact h
    rw [hnone] at hprev
    cases hprev
  obtain ⟨a, hamp⟩ := ampMa15_some hi (by omega)
  have hampr : (rowAt (groupSeries f c) i).amp_ma15 = some a := hamp
  rw [calculate_scores_pass hgreen hprev hvol]
  refine ⟨?_, ?_, ?_⟩
  · rcases volScoreOf_mem ((rowAt (groupSeries f c) i).vol / pv) with
      h | h | h | h <;> rw [h] <;> tauto
  · have h1 := volScoreOf_ge ((rowAt (groupSeries f c) i).vol / pv)
    have h2 := dropScoreOf_nonneg (rowAt (groupSeries f c) i).pct_change
    have h3 := trendScoreOf_nonneg (rowAt (groupSeries f c) i).distance_ma60
    have h4 : 3 ≤ volatilityScoreOf (rowAt (groupSeries f c) i).amp_ma15 := by
      rw [hampr]
      exact volatilityScoreOf_ge_three a
    have h5 := priceScoreOf_nonneg (rowAt (groupSeries f c) i).close
    have h6 := extraScoreOf_nonneg
      (|(rowAt (groupSeries f c) i).close - (rowAt (groupSeries f c) i).open_| /
        (rowAt (groupSeries f c) i).open_ * 100)
      ((min (rowAt (groupSeries f c) i).open_ (rowAt (groupSeries f c) i).close -
        (rowAt (groupSeries f c) i).low) / (rowAt (groupSeries f c) i).low * 100)
      (rowAt (groupSeries f c) i).vol_ratio
    exact le_min (by norm_num) (by linarith)
  · exact min_le_left _ _

set_option maxRecDepth 4000 in
/-- Concrete instance of C10: the last row of `frame21` passes both
gates and scores `volScore = 40`, total between 33 and 100. -/
theorem C10_gate_passing_score_bounds_witness :
    ((calculate_scores ((calculate_indicators frame21).getD 20 default)).volScore
        = some 30 ∨
      (calculate_scores ((calculate_indicators frame21).getD 20 default)).volScore
        = some 35 ∨
      (calculate_scores ((calculate_indicators frame21).getD 20 default)).volScore
        = some 38 ∨
      (calculate_scores ((calculate_indicators frame21).getD 20 default)).volScore
        = some 40) ∧
    33 ≤ (calculate_scores
      ((calculate_indicators frame21).getD 20 default)).total ∧
    (calculate_scores
      ((calculate_indicators frame21).getD 20 default)).total ≤ 100 := by
  apply C10_gate_passing_score_bounds frame21
    ((calculate_indicators frame21).getD 20 default) 100 <;> decide

/-! ## Membership through the sorting and filtering of `run` -/

lemma mem_insertByDate {b a : Bar} {l : List Bar} :
    a ∈ insertByDate b l ↔ a = b ∨ a ∈ l := by
  induction l with
  | nil => simp [insertByDate]
  | cons c l ih =>
    by_cases h : b.trade_date ≤ c.trade_date
    · simp [insertByDate, h]
    · simp [insertByDate, h, ih]
      tauto

lemma mem_sortByDate {a : Bar} {l : List Bar} :
    a ∈ sortByDate l ↔ a ∈ l := by
  induction l with
  | nil => simp [sortByDate]
  | cons b l ih => simp [sortByDate, mem_insertByDate, ih]

lemma length_insertByDate (b : Bar) (l : List Bar) :
    (insertByDate b l).length = l.length + 1 := by
  induction l with
  | nil => rfl
  | cons c l ih =>
    by_cases h : b.trade_date ≤ c.trade_date <;>
      simp [insertByDate, h, ih]

lemma length_sortByDate (l : List Bar) :
    (sortByDate l).length = l.length := by
  induction l with
  | nil => rfl
  | cons b l ih => simp [sortByDate, length_insertByDate, ih]

/-- Every bar of an instrument's group series carries that instrument's
code. -/
lemma groupSeries_code {f : List Bar} {c : String} {b : Bar}
    (hb : b ∈ groupSeries f c) : b.ts_code = c := by
  have := mem_sortByDate.1 hb
  rcases List.mem_filter.1 this with ⟨-, h⟩
  exact beq_iff_eq.1 h

lemma mem_insertByScore {p q : Row × Scores} {l : List (Row × Scores)} :
    p ∈ insertByScore q l ↔ p = q ∨ p ∈ l := by
  induction l with
  | nil => simp [insertByScore]
  | cons a l ih =>
    by_cases h : a.2.total < q.2.total
    · simp [insertByScore, h]
    · simp [insertByScore, h, ih]
      tauto

lemma mem_sortByScoreDesc {p : Row × Scores} {l : List (Row × Scores)} :
    p ∈ sortByScoreDesc l ↔ p ∈ l := by
  induction l with
  | nil => simp [sortByScoreDesc]
  | cons q l ih => simp [sortByScoreDesc, mem_insertByScore, ih]

/-- Decomposition of a `run` result: every emitted record is a
threshold-passing scored row of the indicator frame. -/
lemma mem_run {f : List Bar} {p : Row × Scores} (hp : p ∈ run f) :
    minScore ≤ p.2.total ∧
      ∃ r, p = (r, calculate_scores r) ∧ r ∈ calculate_indicators f := by
  unfold run at hp
  by_cases hf : f.isEmpty
  · rw [if_pos hf] at hp
    cases hp
  · rw [if_neg hf] at hp
    rw [mem_sortByScoreDesc] at hp
    rcases List.mem_filter.1 hp with ⟨hmem, hsc⟩
    rcases List.mem_map.1 hmem with ⟨r, hr, rfl⟩
    refine ⟨by simpa using hsc, r, rfl, ?_⟩
    exact (List.mem_filter.1 hr).1

/-! ## Order lemmas for the per-instrument sort (claim C6) -/

lemma insertByDate_perm (b : Bar) (l : List Bar) :
    List.Perm (insertByDate b l) (b :: l) := by
  induction l with
  | nil => rfl
  | cons c m ih =>
    by_cases h : b.trade_date ≤ c.trade_date
    · simp [insertByDate, h]
    · simp only [insertByDate, if_neg h]
      exact (ih.cons c).trans (List.Perm.swap b c m)

lemma sortByDate_perm (l : List Bar) : List.Perm (sortByDate l) l := by
  induction l with
  | nil => rfl
  | cons b l ih => exact (insertByDate_perm b (sortByDate l)).trans (ih.cons b)

lemma insertByDate_sorted {b : Bar} {l : List Bar}
    (h : List.Pairwise (fun a b : Bar => a.trade_date ≤ b.trade_date) l) :
    List.Pairwise (fun a b : Bar => a.trade_date ≤ b.trade_date)
      (insertByDate b l) := by
  induction l with
  | nil => simp [insertByDate]
  | cons c l ih =>
    rcases List.pairwise_cons.1 h with ⟨hc, hl⟩
    by_cases hd : b.trade_date ≤ c.trade_date
    · simp only [insertByDate, if_pos hd]
      refine List.pairwise_cons.2 ⟨?_, h⟩
      intro x hx
      rcases List.mem_cons.1 hx with rfl | hx
      · exact hd
      · exact le_trans hd (hc x hx)
    · simp only [insertByDate, if_neg hd]
      refine List.pairwise_cons.2 ⟨?_, ih hl⟩
      intro x hx
      rcases mem_insertByDate.1 hx with rfl | hx
      · exact le_of_not_le hd
      · exact hc x hx

lemma sortByDate_sorted (l : List Bar) :
    List.Pairwise (fun a b : Bar => a.trade_date ≤ b.trade_date)
      (sortByDate l) := by
  induction l with
  | nil => simp [sortByDate]
  | cons b l ih => exact insertByDate_sorted ih

lemma insertByDate_append_left {b : Bar} {lo hi : List Bar}
    (h : ∀ x ∈ hi, b.trade_date ≤ x.trade_date) :
    insertByDate b (lo ++ hi) = insertByDate b lo ++ hi := by
  induction lo with
  | nil =>
    cases hi with
    | nil => rfl
    | cons c m => simp [insertByDate, h c (by simp)]
  | cons a lo ih =>
    by_cases hd : b.trade_date ≤ a.trade_date <;>
      simp [insertByDate, hd, ih]

lemma insertByDate_append_right {b : Bar} {lo hi : List Bar}
    (h : ∀ x ∈ lo, ¬ b.trade_date ≤ x.trade_date) :
    insertByDate b (lo ++ hi) = lo ++ insertByDate b hi := by
  induction lo with
  | nil => rfl
  | cons a lo ih =>
    have ha : ¬ b.trade_date ≤ a.trade_date := h a (by simp)
    simp only [List.cons_append, insertByDate, if_neg ha]
    exact congrArg (fun t => a :: t) (ih (fun x hx => h x (by simp [hx])))

/-- Stable split of the date sort at a cutoff `T`: the sorted list is
the sorted at-or-before-`T` part followed by the sorted after-`T`
part. -/
lemma sortByDate_split (T : ℕ) (l : List Bar) :
    sortByDate l =
      sortByDate (l.filter (fun b => decide (b.trade_date ≤ T))) ++
        sortByDate (l.filter (fun b => !decide (b.trade_date ≤ T))) := by
  induction l with
  | nil => rfl
  | cons x l ih =>
    by_cases hx : x.trade_date ≤ T
    · have hfp : (x :: l).filter (fun b => decide (b.trade_date ≤ T)) =
          x :: l.filter (fun b => decide (b.trade_date ≤ T)) := by
        simp [List.filter, hx]
      have hfn : (x :: l).filter (fun b => !decide (b.trade_date ≤ T)) =
          l.filter (fun b => !decide (b.trade_date ≤ T)) := by
        simp [List.filter, hx]
      rw [sortByDate, ih, hfp, hfn, sortByDate,
        insertByDate_append_left]
      intro y hy
      have hy' := List.mem_filter.1 (mem_sortByDate.1 hy)
      have : ¬ y.trade_date ≤ T := by simpa using hy'.2
      omega
    · have hfp : (x :: l).filter (fun b => decide (b.trade_date ≤ T)) =
          l.filter (fun b => decide (b.trade_date ≤ T)) := by
        simp [List.filter, hx]
      have hfn : (x :: l).filter (fun b => !decide (b.trade_date ≤ T)) =
          x :: l.filter (fun b => !decide (b.trade_date ≤ T)) := by
        simp [List.filter, hx]
      rw [sortByDate, ih, hfp, hfn, sortByDate,
        insertByDate_append_right]
      intro y hy
      have hy' := List.mem_filter.1 (mem_sortByDate.1 hy)
      have : y.trade_date ≤ T := by simpa using hy'.2
      omega

/-- Under the store key invariant, one instrument's rows have pairwise
distinct dates. -/
lemma dates_nodup_filter_code {f : List Bar} (hu : keysNodup f)
    (c : String) :
    ((f.filter (fun b => b.ts_code == c)).map Bar.trade_date).Nodup := by
  induction f with
  | nil => simp
  | cons a f ih =>
    have hu' : keysNodup f := (List.nodup_cons.1 hu).2
    have hka : a.key ∉ f.map Bar.key := (List.nodup_cons.1 hu).1
    by_cases hc : (a.ts_code == c) = true
    · rw [List.filter_cons, if_pos hc, List.map_cons, List.nodup_cons]
      refine ⟨?_, ih hu'⟩
      intro hmem
      rcases List.mem_map.1 hmem with ⟨b, hb, hdate⟩
      rcases List.mem_filter.1 hb with ⟨hbf, hbc⟩
      have : a.key = b.key := by
        have h1 : a.ts_code = c := beq_iff_eq.1 hc
        have h2 : b.ts_code = c := beq_iff_eq.1 hbc
        simp [Bar.key, h1, h2, hdate]
      exact hka (this ▸ List.mem_map_of_mem Bar.key hbf)
    · rw [List.filter_cons, if_neg hc]
      exact ih hu'

/-- In a date-sorted list every element's date is at most the last
element's date. -/
lemma date_le_getD_last {l : List Bar}
    (hs : List.Pairwise (fun a b : Bar => a.trade_date ≤ b.trade_date) l)
    {b : Bar} (hb : b ∈ l) :
    b.trade_date ≤ (l.getD (l.length - 1) default).trade_date := by
  induction l with
  | nil => cases hb
  | cons a l ih =>
    rcases List.pairwise_cons.1 hs with ⟨ha, hl⟩
    cases l with
    | nil =>
      rcases List.mem_cons.1 hb with rfl | hb'
      · exact le_rfl
      · cases hb'
    | cons c m =>
      have hlen : (a :: c :: m).length - 1 = (c :: m).length := by simp
      have hstep : (a :: c :: m).getD ((c :: m).length) default =
          (c :: m).getD ((c :: m).length - 1) default := by
        cases m <;> simp [List.getD]
      rw [hlen, hstep]
      rcases List.mem_cons.1 hb with rfl | hb'
      · refine ha _ ?_
        have hlt : (c :: m).length - 1 < (c :: m).length := by simp
        rw [List.getD_eq_getElem?_getD, List.getElem?_eq_getElem hlt]
        simp only [Option.getD_some]
        exact List.getElem_mem hlt
      · exact ih hl hb'

/-! ## The `getRow` characterization (claim C6) -/

/-- One instrument's rows at or before the cutoff date, date-sorted:
the only data the indicator value at (instrument, `T`) may depend on. -/
def lowOf (f : List Bar) (c : String) (T : ℕ) : List Bar :=
  sortByDate ((f.filter (fun b => b.ts_code == c)).filter
    (fun b => decide (b.trade_date ≤ T)))

lemma find?_eq_some_of_unique {α : Type} {p : α → Bool} {l : List α}
    {a : α} (ha : a ∈ l) (hpa : p a = true)
    (huniq : ∀ b ∈ l, p b = true → b = a) :
    l.find? p = some a := by
  induction l with
  | nil => cases ha
  | cons c l ih =>
    cases hpc : p c with
    | true =>
      rw [List.find?_cons_of_pos _ hpc]
      exact congrArg some (huniq c (List.mem_cons_self c l) hpc)
    | false =>
      rw [List.find?_cons_of_neg _ (by simp [hpc])]
      have ha' : a ∈ l := by
        rcases List.mem_cons.1 ha with rfl | h
        · rw [hpa] at hpc
          cases hpc
        · exact h
      exact ih ha' (fun b hb hpb => huniq b (List.mem_cons_of_mem c hb) hpb)

lemma getD_date_inj {l : List Bar} (hnd : (l.map Bar.trade_date).Nodup)
    {j k : ℕ} (hj : j < l.length) (hk : k < l.length)
    (heq : (l.getD j default).trade_date = (l.getD k default).trade_date) :
    j = k := by
  have hj' : j < (l.map Bar.trade_date).length := by simpa using hj
  have hk' : k < (l.map Bar.trade_date).length := by simpa using hk
  have hgd : ∀ (m : ℕ) (hm : m < l.length),
      (l.map Bar.trade_date).get ⟨m, by simpa using hm⟩ =
        (l.getD m default).trade_date := by
    intro m hm
    rw [List.get_eq_getElem, List.getElem_map,
      List.getD_eq_getElem?_getD, List.getElem?_eq_getElem hm]
    rfl
  have h1 : (l.map Bar.trade_date).get ⟨j, hj'⟩ =
      (l.map Bar.trade_date).get ⟨k, hk'⟩ := by
    rw [hgd j hj, hgd k hk, heq]
  have h2 := (List.Nodup.get_inj_iff hnd).1 h1
  simpa using h2

/-- Under the key invariant, one instrument's group series has pairwise
distinct dates. -/
lemma groupSeries_dates_nodup {f : List Bar} (hu : keysNodup f)
    (c : String) :
    ((groupSeries f c).map Bar.trade_date).Nodup := by
  have hperm := (sortByDate_perm
    (f.filter (fun b => b.ts_code == c))).map Bar.trade_date
  exact hperm.nodup_iff.2 (dates_nodup_filter_code hu c)

/-- The group series splits as the sorted at-or-before-`T` rows followed
by the sorted later rows. -/
lemma groupSeries_eq_low_append (f : List Bar) (c : String) (T : ℕ) :
    groupSeries f c =
      lowOf f c T ++ sortByDate ((f.filter (fun b => b.ts_code == c)).filter
        (fun b => !decide (b.trade_date ≤ T))) :=
  sortByDate_split T _

lemma lowOf_getD_mem {f : List Bar} {c : String} {T : ℕ} {k : ℕ}
    (hk : k < (lowOf f c T).length) :
    (lowOf f c T).getD k default ∈ lowOf f c T := by
  rw [List.getD_eq_getElem?_getD, List.getElem?_eq_getElem hk]
  simp only [Option.getD_some]
  exact List.getElem_mem hk

/-- Every member of `lowOf` is one of the instrument's bars dated at or
before `T`. -/
lemma mem_lowOf {f : List Bar} {c : String} {T : ℕ} {b : Bar}
    (hb : b ∈ lowOf f c T) :
    b ∈ f.filter (fun x => x.ts_code == c) ∧ b.trade_date ≤ T := by
  have h := mem_sortByDate.1 hb
  rcases List.mem_filter.1 h with ⟨h1, h2⟩
  exact ⟨h1, by simpa using h2⟩

/-- When the instrument has a bar dated `T`, its augmented row in the
frame is determined by `lowOf f c T` alone: it is the row computed at
the last position of that prefix. -/
lemma getRow_eq_some {f : List Bar} {c : String} {T : ℕ}
    (hu : keysNodup f) (hex : ∃ b ∈ lowOf f c T, b.trade_date = T) :
    getRow f c T =
      some (rowAt (lowOf f c T) ((lowOf f c T).length - 1)) := by
  classical
  obtain ⟨b0, hb0, hb0T⟩ := hex
  have hlow_ne : lowOf f c T ≠ [] := by
    intro h
    rw [h] at hb0
    cases hb0
  have klt : (lowOf f c T).length - 1 < (lowOf f c T).length := by
    cases hlen : (lowOf f c T).length with
    | zero => exact absurd (List.length_eq_zero.1 hlen) hlow_ne
    | succ n => omega
  have hsplit := groupSeries_eq_low_append f c T
  have hglen : (lowOf f c T).length ≤ (groupSeries f c).length := by
    rw [hsplit, List.length_append]
    omega
  have hklt : (lowOf f c T).length - 1 < (groupSeries f c).length :=
    lt_of_lt_of_le klt hglen
  -- the bar at the last position of the prefix
  have hgetD : (groupSeries f c).getD ((lowOf f c T).length - 1) default =
      (lowOf f c T).getD ((lowOf f c T).length - 1) default := by
    rw [hsplit, List.getD_eq_getElem?_getD, List.getElem?_append_left klt,
      List.getD_eq_getElem?_getD]
  have hlastmem : (lowOf f c T).getD ((lowOf f c T).length - 1) default ∈
      lowOf f c T := lowOf_getD_mem klt
  have hlast_le :
      ((lowOf f c T).getD ((lowOf f c T).length - 1) default).trade_date
        ≤ T := (mem_lowOf hlastmem).2
  have hlast_ge : T ≤
      ((lowOf f c T).getD ((lowOf f c T).length - 1) default).trade_date := by
    have hsorted : List.Pairwise
        (fun a b : Bar => a.trade_date ≤ b.trade_date) (lowOf f c T) :=
      sortByDate_sorted _
    have := date_le_getD_last hsorted hb0
    omega
  have hlastT :
      ((lowOf f c T).getD ((lowOf f c T).length - 1) default).trade_date
        = T := by omega
  -- the candidate row
  have hrow_code :
      (rowAt (groupSeries f c) ((lowOf f c T).length - 1)).ts_code = c := by
    have hmem : (groupSeries f c).getD ((lowOf f c T).length - 1) default ∈
        groupSeries f c := by
      rw [List.getD_eq_getElem?_getD, List.getElem?_eq_getElem hklt]
      simp only [Option.getD_some]
      exact List.getElem_mem hklt
    exact groupSeries_code hmem
  have hrow_date :
      (rowAt (groupSeries f c) ((lowOf f c T).length - 1)).trade_date = T := by
    show ((groupSeries f c).getD ((lowOf f c T).length - 1)
      default).trade_date = T
    rw [hgetD]
    exact hlastT
  -- the row is in the frame
  have hcodes : c ∈ frameCodes f := by
    rcases List.mem_filter.1 (mem_lowOf hb0).1 with ⟨hbf, hbc⟩
    exact List.mem_dedup.2 (List.mem_map.2 ⟨b0, hbf, beq_iff_eq.1 hbc⟩)
  have hrmem : rowAt (groupSeries f c) ((lowOf f c T).length - 1) ∈
      calculate_indicators f :=
    List.mem_flatMap.2 ⟨c, hcodes, mem_indicatorsGroup.2 ⟨_, hklt, rfl⟩⟩
  -- it matches the key, and uniquely so
  have hp : ((rowAt (groupSeries f c) ((lowOf f c T).length - 1)).ts_code == c
      && (rowAt (groupSeries f c)
        ((lowOf f c T).length - 1)).trade_date == T) = true := by
    simp [hrow_code, hrow_date]
  have huniq : ∀ r' ∈ calculate_indicators f,
      (r'.ts_code == c && r'.trade_date == T) = true →
        r' = rowAt (groupSeries f c) ((lowOf f c T).length - 1) := by
    intro r' hr' hpr'
    obtain ⟨c'', hc'', hr''⟩ := List.mem_flatMap.1 hr'
    obtain ⟨j, hj, rfl⟩ := mem_indicatorsGroup.1 hr''
    have hcode'' : (rowAt (groupSeries f c'') j).ts_code = c'' := by
      have hmem : (groupSeries f c'').getD j default ∈ groupSeries f c'' := by
        rw [List.getD_eq_getElem?_getD, List.getElem?_eq_getElem hj]
        simp only [Option.getD_some]
        exact List.getElem_mem hj
      exact groupSeries_code hmem
    rcases Bool.and_eq_true_iff.mp hpr' with ⟨hpc, hpd⟩
    have hceq : c'' = c := by
      rw [← hcode'']
      exact beq_iff_eq.1 hpc
    subst hceq
    have hdate'' : ((groupSeries f c'').getD j default).trade_date = T :=
      beq_iff_eq.1 hpd
    have hnd := groupSeries_dates_nodup hu c''
    have hjk : j = (lowOf f c'' T).length - 1 := by
      refine getD_date_inj hnd hj hklt ?_
      rw [hdate'', hgetD, hlastT]
    rw [hjk]
  have hfind := find?_eq_some_of_unique hrmem hp huniq
  rw [getRow, hfind]
  -- finally, the row only reads the prefix
  have hpref := rowAt_append (lowOf f c T)
    (sortByDate ((f.filter (fun b => b.ts_code == c)).filter
      (fun b => !decide (b.trade_date ≤ T)))) klt
  rw [hsplit, hpref]

/-- When the instrument has no bar dated `T` at or before `T`, the frame
has no row at (instrument, `T`). -/
lemma getRow_eq_none {f : List Bar} {c : String} {T : ℕ}
    (hex : ¬ ∃ b ∈ lowOf f c T, b.trade_date = T) :
    getRow f c T = none := by
  rw [getRow]
  rw [List.find?_eq_none]
  intro r' hr' hpr'
  obtain ⟨c'', hc'', hr''⟩ := List.mem_flatMap.1 hr'
  obtain ⟨j, hj, rfl⟩ := mem_indicatorsGroup.1 hr''
  have hmem : (groupSeries f c'').getD j default ∈ groupSeries f c'' := by
    rw [List.getD_eq_getElem?_getD, List.getElem?_eq_getElem hj]
    simp only [Option.getD_some]
    exact List.getElem_mem hj
  have hcode'' : (rowAt (groupSeries f c'') j).ts_code = c'' :=
    groupSeries_code hmem
  rcases Bool.and_eq_true_iff.mp hpr' with ⟨hpc, hpd⟩
  have hceq : c'' = c := by
    rw [← hcode'']
    exact beq_iff_eq.1 hpc
  subst hceq
  have hdate'' : ((groupSeries f c'').getD j default).trade_date = T :=
    beq_iff_eq.1 hpd
  refine hex ⟨(groupSeries f c'').getD j default, ?_, hdate''⟩
  have hbf : (groupSeries f c'').getD j default ∈
      f.filter (fun b => b.ts_code == c'') := mem_sortByDate.1 hmem
  rw [lowOf]
  rw [mem_sortByDate]
  refine List.mem_filter.2 ⟨hbf, ?_⟩
  have hle : ((groupSeries f c'').getD j default).trade_date ≤ T :=
    le_of_eq hdate''
  simpa using hle

/-- C6.  Every computed indicator value of instrument `c` at date `T` is
a function of the instrument's own bars dated at or before `T` only:
two frames with the same (sorted) `c`-rows up to `T` give the same
augmented row at (c, T), whatever bars after `T` are appended and
whatever other instruments' bars are added or removed.  In particular
the 60-period moving average has no look-ahead and rolling state never
crosses instrument boundaries. -/
theorem C6_no_lookahead_no_cross_instrument (f₁ f₂ : List Bar)
    (c : String) (T : ℕ) (h₁ : keysNodup f₁) (h₂ : keysNodup f₂)
    (hlow : lowOf f₁ c T = lowOf f₂ c T) :
    getRow f₁ c T = getRow f₂ c T := by
  by_cases hex : ∃ b ∈ lowOf f₁ c T, b.trade_date = T
  · rw [getRow_eq_some h₁ hex, getRow_eq_some h₂ (hlow ▸ hex), hlow]
  · rw [getRow_eq_none hex, getRow_eq_none (hlow ▸ hex)]

/-- Concrete instance of C6: appending a later-dated bar of "X" and an
unrelated instrument "Y" to a two-bar frame leaves the row of
("X", date 1) unchanged. -/
theorem C6_no_lookahead_no_cross_instrument_witness :
    getRow [flatBar 0, shrinkBar 1] "X" 1 =
      getRow [flatBar 0,
        { ts_code := "Y", trade_date := 0, open_ := 3, high := 4, low := 2,
          close := 3, vol := 7 },
        shrinkBar 1, flatBar 2] "X" 1 := by
  apply C6_no_lookahead_no_cross_instrument <;> decide

/-! ## Minimum-history boundary (claim C3) -/

set_option maxRecDepth 8000 in
/-- C3, counterexample.  An instrument with exactly 69 bars *does*
produce a score record: on `frame69` (68 flat days, then a green
sharply-shrunk day) the run emits exactly one record for "X" with total
88.  There is no 70-observation minimum anywhere in this pipeline. -/
theorem C3_counterexample :
    frame69.length = 69 ∧
    (run frame69).map (fun p => (p.1.ts_code, p.2.total)) = [("X", 88)] := by
  decide

set_option maxRecDepth 8000 in
/-- C3, amended.  The history boundary this code actually imposes is 21
observations, coming from the shifted 20-day rolling-minimum gate: an
instrument with 20 bars or fewer produces no score record (its
`prev_vol_min_20` is NaN on every row, so every row totals 0, below the
inclusion threshold 60), while an instrument with 21 bars is eligible
for evaluation (`frame21` produces a record).  The spec's 69/70
boundary does not exist in the code. -/
theorem C3_amended_min_history_boundary :
    (∀ (f : List Bar) (c : String),
      (f.filter (fun b => b.ts_code == c)).length ≤ 20 →
      (run f).all (fun p => !(p.1.ts_code == c)) = true) ∧
    (run frame21).length = 1 := by
  constructor
  · intro f c hlen
    rw [List.all_eq_true]
    intro p hp
    rcases mem_run hp with ⟨htot, r, rfl, hr⟩
    simp only [Bool.not_eq_true', beq_eq_false_iff_ne]
    intro hcode
    obtain ⟨c', hc', hr'⟩ := List.mem_flatMap.1 hr
    obtain ⟨i, hi, hrow⟩ := mem_indicatorsGroup.1 hr'
    subst hrow
    have hbmem : (groupSeries f c').getD i default ∈ groupSeries f c' := by
      rw [List.getD_eq_getElem?_getD, List.getElem?_eq_getElem hi]
      simp only [Option.getD_some]
      exact List.getElem_mem hi
    have hcode' : (rowAt (groupSeries f c') i).ts_code = c' :=
      groupSeries_code hbmem
    have hceq : c' = c := by rw [← hcode, hcode']
    subst hceq
    have hglen : (groupSeries f c').length ≤ 20 := by
      rw [groupSeries, length_sortByDate]
      exact hlen
    have hi20 : ¬ (20 ≤ i) := by omega
    have hprev : (rowAt (groupSeries f c') i).prev_vol_min_20 = none := by
      have h := prevVolMin_eq hi
      rw [if_neg hi20] at h
      exact h
    have hzero := calculate_scores_total_zero_of_prev_none hprev
    rw [hzero] at htot
    norm_num [minScore] at htot
  · decide

set_option maxRecDepth 8000 in
/-- Concrete instance of the amended C3: 20 bars (`frame20`) yield no
record for "X"; 21 bars (`frame21`) yield exactly one. -/
theorem C3_amended_min_history_boundary_witness :
    (run frame20).all (fun p => !(p.1.ts_code == "X")) = true ∧
    (run frame21).length = 1 :=
  ⟨C3_amended_min_history_boundary.1 frame20 "X" (by decide),
    C3_amended_min_history_boundary.2⟩

/-! ## The close-below-MA scenario (claim C9) -/

/-- 59 bars whose closes average with a final close of 8 to a 60-period
mean of exactly 10, with volumes making the final 20-day mean twice the
final volume. -/
def scenarioBar (d : ℕ) : Bar :=
  { ts_code := "X", trade_date := d, open_ := 8, high := 11, low := 7,
    close := 592/59, vol := 39 }

/-- The scenario frame: the last bar has close 8 (= open, so not green),
60-period MA 10, volume 19 = 50 % of its 20-day mean 38. -/
def frameC9 : List Bar :=
  ((List.range 59).map scenarioBar) ++
    [{ ts_code := "X", trade_date := 59, open_ := 8, high := 11, low := 7,
       close := 8, vol := 19 }]

/-- The scenario frame with the last bar green (open 8.5 > close 8); its
volume 19 is also below 80 % of the prior-20-day minimum 39. -/
def frameC9g : List Bar :=
  ((List.range 59).map scenarioBar) ++
    [{ ts_code := "X", trade_date := 59, open_ := 17/2, high := 11, low := 7,
       close := 8, vol := 19 }]

set_option maxRecDepth 8000 in
/-- C9, counterexample.  A row produced by the indicator computation
with exactly the scenario's metrics — close 8.00, 60-period MA 10.00
(close below the MA), volume 50 % of its 20-day average, close above
the 3.00 floor — nevertheless fails the gate tier (its candle is not
green) and receives total 0 with no volume sub-score at all: the
scenario's metrics do not determine the gates this code actually runs. -/
theorem C9_counterexample :
    ((calculate_indicators frameC9).getD 59 default).close = 8 ∧
    ((calculate_indicators frameC9).getD 59 default).ma_60 = some 10 ∧
    ((calculate_indicators frameC9).getD 59 default).vol_ma20 = some 38 ∧
    ((calculate_indicators frameC9).getD 59 default).vol = 19 ∧
    ((calculate_indicators frameC9).getD 59 default).vol_ratio = some (1/2) ∧
    (3:ℚ) ≤ ((calculate_indicators frameC9).getD 59 default).close ∧
    (calculate_scores ((calculate_indicators frameC9).getD 59 default)).total
      = 0 ∧
    (calculate_scores
      ((calculate_indicators frameC9).getD 59 default)).volScore = none := by
  decide

/-- C9, amended.  A row with the scenario's metrics — close 8.00,
60-period MA 10.00, volume 50 % of its 20-day average, close at or
above the 3.00 floor — that moreover satisfies the two gates this
policy really evaluates (green candle, and volume below 80 % of a
non-NaN prior-20-day minimum) passes the gate tier (no disqualification
reason) and receives a non-zero volume sub-score of at least 30. -/
theorem C9_amended_scenario_passes (r : Row) (pv : ℚ)
    (hclose : r.close = 8) (hma : r.ma_60 = some 10)
    (hhalf : r.vol_ratio = some (1/2))
    (hfloor : (3:ℚ) ≤ r.close)
    (hgreen : r.close < r.open_)
    (hprev : r.prev_vol_min_20 = some pv)
    (hvol : r.vol < pv * (4/5)) :
    (calculate_scores r).reason = none ∧
    (calculate_scores r).volScore = some (volScoreOf (r.vol / pv)) ∧
    30 ≤ volScoreOf (r.vol / pv) := by
  rw [calculate_scores_pass hgreen hprev hvol]
  exact ⟨rfl, rfl, volScoreOf_ge _⟩

set_option maxRecDepth 8000 in
/-- Concrete instance of the amended C9 on `frameC9g`: the green
scenario row passes the gates and scores the full 40 volume points. -/
theorem C9_amended_scenario_passes_witness :
    (calculate_scores
      ((calculate_indicators frameC9g).getD 59 default)).reason = none ∧
    (calculate_scores
      ((calculate_indicators frameC9g).getD 59 default)).volScore =
      some (volScoreOf
        (((calculate_indicators frameC9g).getD 59 default).vol / 39)) ∧
    30 ≤ volScoreOf
      (((calculate_indicators frameC9g).getD 59 default).vol / 39) := by
  apply C9_amended_scenario_passes
    ((calculate_indicators frameC9g).getD 59 default) 39 <;> decide

/-! ## Store-write lemmas (claim C2) -/

lemma matchKey_iff {c : String} {d : ℕ} {b : Bar} :
    matchKey c d b = true ↔ b.ts_code = c ∧ b.trade_date = d := by
  simp [matchKey]

lemma matchKey_key {c : String} {d : ℕ} {b : Bar} :
    matchKey c d b = true ↔ b.key = (c, d) := by
  simp [matchKey_iff, Bar.key, Prod.ext_iff]

lemma hasKey_iff {t : List Bar} {c : String} {d : ℕ} :
    hasKey t c d = true ↔ (c, d) ∈ t.map Bar.key := by
  simp only [hasKey, List.any_eq_true, List.mem_map]
  constructor
  · rintro ⟨b, hb, hm⟩
    exact ⟨b, hb, (matchKey_key.1 hm)⟩
  · rintro ⟨b, hb, hm⟩
    exact ⟨b, hb, matchKey_key.2 hm⟩

lemma keyCount_eq_zero_of_not_mem {t : List Bar} {c : String} {d : ℕ}
    (h : (c, d) ∉ t.map Bar.key) : keyCount t c d = 0 := by
  induction t with
  | nil => rfl
  | cons a t ih =>
    have ha : matchKey c d a = false := by
      cases hm : matchKey c d a with
      | false => rfl
      | true => exact absurd (by simp [matchKey_key.1 hm]) h
    have h' : (c, d) ∉ t.map Bar.key := fun hmem => h (by simp [hmem])
    have := ih h'
    simpa [keyCount, List.filter, ha] using this

lemma keyCount_eq_one_of_mem {t : List Bar} {b : Bar}
    (hu : keysNodup t) (hb : b ∈ t) :
    keyCount t b.ts_code b.trade_date = 1 := by
  induction t with
  | nil => cases hb
  | cons a t ih =>
    have hu' : keysNodup t := (List.nodup_cons.1 hu).2
    have hka : a.key ∉ t.map Bar.key := (List.nodup_cons.1 hu).1
    rcases List.mem_cons.1 hb with rfl | hb'
    · have hmm : matchKey b.ts_code b.trade_date b = true := by
        simp [matchKey]
      have : keyCount t b.ts_code b.trade_date = 0 :=
        keyCount_eq_zero_of_not_mem (by simpa [Bar.key] using hka)
      simp [keyCount, List.filter, hmm] at this ⊢
      exact this
    · have hne : matchKey b.ts_code b.trade_date a = false := by
      -- if a matched b's key, b ∈ t would duplicate that key
        cases hm : matchKey b.ts_code b.trade_date a with
        | false => rfl
        | true =>
          have : a.key = b.key := by
            simpa [Bar.key, Prod.ext_iff] using matchKey_iff.1 hm
          exact absurd (this ▸ List.mem_map_of_mem Bar.key hb') hka
      simpa [keyCount, List.filter, hne] using ih hu' hb'

lemma rowFor_eq_of_mem {t : List Bar} {b : Bar}
    (hu : keysNodup t) (hb : b ∈ t) :
    rowFor t b.ts_code b.trade_date = some b := by
  induction t with
  | nil => cases hb
  | cons a t ih =>
    have hu' : keysNodup t := (List.nodup_cons.1 hu).2
    have hka : a.key ∉ t.map Bar.key := (List.nodup_cons.1 hu).1
    rcases List.mem_cons.1 hb with rfl | hb'
    · simp [rowFor, List.find?, matchKey]
    · have hne : matchKey b.ts_code b.trade_date a = false := by
        cases hm : matchKey b.ts_code b.trade_date a with
        | false => rfl
        | true =>
          have : a.key = b.key := by
            simpa [Bar.key, Prod.ext_iff] using matchKey_iff.1 hm
          exact absurd (this ▸ List.mem_map_of_mem Bar.key hb') hka
      simpa [rowFor, List.find?, hne] using ih hu' hb'

/-- One conflict-skipping insert preserves the key invariant. -/
lemma keysNodup_insert {t : List Bar} (r : Bar) (hu : keysNodup t) :
    keysNodup (insert_on_conflict_nothing t r) := by
  unfold insert_on_conflict_nothing
  cases hk : hasKey t r.ts_code r.trade_date with
  | true => simpa [hk] using hu
  | false =>
    have : r.key ∉ t.map Bar.key := by
      intro hmem
      have : hasKey t r.ts_code r.trade_date = true := hasKey_iff.2 hmem
      simp [this] at hk
    simp only [hk, if_neg, Bool.false_eq_true, not_false_iff, keysNodup,
      List.map_append, List.map_cons, List.map_nil]
    exact List.Nodup.append hu (List.nodup_singleton _)
      (by simpa [List.disjoint_singleton] using this)

/-- One conflict-skipping insert never disturbs a row already present. -/
lemma mem_insert_of_mem {t : List Bar} {b : Bar} (r : Bar) (hb : b ∈ t) :
    b ∈ insert_on_conflict_nothing t r := by
  unfold insert_on_conflict_nothing
  cases hasKey t r.ts_code r.trade_date <;> simp [hb]

lemma save_data_keysNodup (df : List Bar) {t : List Bar} (hu : keysNodup t) :
    keysNodup (save_data t df) := by
  induction df generalizing t with
  | nil => exact hu
  | cons r df ih => exact ih (keysNodup_insert r hu)

lemma save_data_mem (df : List Bar) {t : List Bar} {b : Bar} (hb : b ∈ t) :
    b ∈ save_data t df := by
  induction df generalizing t with
  | nil => exact hb
  | cons r df ih => exact ih (mem_insert_of_mem r hb)

/-- C2.  For every sequence of write operations on a store satisfying the
per-key uniqueness invariant, writing any batch (in particular one whose
bars' (instrument, date) keys already exist) leaves exactly one row for
each previously stored key, that row keeps the first-written field
values, a conflicting single-row write is a literal no-op, and the
uniqueness invariant is preserved.  The write is a total function
(`ON CONFLICT DO NOTHING` raises on nothing, and `save_data` catches all
exceptions besides). -/
theorem C2_idempotent_write (t df : List Bar) (b : Bar)
    (hu : keysNodup t) (hb : b ∈ t) :
    keysNodup (save_data t df) ∧
    keyCount (save_data t df) b.ts_code b.trade_date = 1 ∧
    rowFor (save_data t df) b.ts_code b.trade_date = some b ∧
    ∀ r : Bar, hasKey t r.ts_code r.trade_date = true →
      insert_on_conflict_nothing t r = t := by
  have hu' := save_data_keysNodup df hu
  have hb' := save_data_mem df hb
  refine ⟨hu', keyCount_eq_one_of_mem hu' hb', rowFor_eq_of_mem hu' hb', ?_⟩
  intro r hr
  simp [insert_on_conflict_nothing, hr]

/-- Concrete instance of C2: a bar with the key of an already-stored bar
but different field values is skipped; the first-written row survives
alone. -/
theorem C2_idempotent_write_witness :
    keysNodup [⟨"X", 0, 1, 2, 1, 2, 50⟩] ∧
    keyCount (save_data [⟨"X", 0, 1, 2, 1, 2, 50⟩] [⟨"X", 0, 9, 9, 9, 9, 9⟩])
      "X" 0 = 1 ∧
    rowFor (save_data [⟨"X", 0, 1, 2, 1, 2, 50⟩] [⟨"X", 0, 9, 9, 9, 9, 9⟩])
      "X" 0 = some ⟨"X", 0, 1, 2, 1, 2, 50⟩ ∧
    insert_on_conflict_nothing [⟨"X", 0, 1, 2, 1, 2, 50⟩] ⟨"X", 0, 9, 9, 9, 9, 9⟩
      = [⟨"X", 0, 1, 2, 1, 2, 50⟩] := by
  have h := C2_idempotent_write [⟨"X", 0, 1, 2, 1, 2, 50⟩]
    [⟨"X", 0, 9, 9, 9, 9, 9⟩] ⟨"X", 0, 1, 2, 1, 2, 50⟩ (by decide) (by decide)
  exact ⟨by decide, h.2.1, h.2.2.1, h.2.2.2 ⟨"X", 0, 9, 9, 9, 9, 9⟩ (by decide)⟩

/-! ## Sorting lemmas for the reconciliation pass -/

lemma insertNat_eq_cons {d : ℕ} {l : List ℕ} (h : ∀ x ∈ l, d ≤ x) :
    insertNat d l = d :: l := by
  cases l with
  | nil => rfl
  | cons e l => simp [insertNat, h e (by simp)]

lemma sortNat_eq_self {l : List ℕ} (h : List.Pairwise (· ≤ ·) l) :
    sortNat l = l := by
  induction l with
  | nil => rfl
  | cons d l ih =>
    rcases List.pairwise_cons.1 h with ⟨hd, hl⟩
    rw [sortNat, ih hl, insertNat_eq_cons hd]

/-! ## Gap reconciliation theorems (claims C1 and C8) -/

lemma map_fst_pair {α β : Type} (g : α → β) (l : List α) :
    (l.map (fun d => (d, g d))).map Prod.fst = l := by
  induction l with
  | nil => rfl
  | cons a l ih => simp only [List.map_cons, ih]

/-- The per-date fetch trace of a reconciliation pass (the `.ok` payload
of `backfill_data`, which never takes the error branch). -/
def backfillFetches (today lookback : ℕ) (store : StoreResult)
    (resp : ℕ → ℕ → FetchOutcome) : List (ℕ × List FetchEvent) :=
  match backfill_data today lookback store resp with
  | .ok fs => fs
  | .error _ => []

/-- C1.  With a reachable store and a positive lookback, the dates a
reconciliation pass fetches are exactly the candidate-window dates not
already present in the store (presence scoped to the window), processed
in strictly ascending date order, the fetch client invoked exactly once
per missing date and never for a present date. -/
theorem C1_backfill_fetches_exactly_missing (today lookback : ℕ)
    (stored : List ℕ) (resp : ℕ → ℕ → FetchOutcome) (hpos : 0 < lookback) :
    backfill_data today lookback (StoreResult.ok stored) resp =
      .ok (backfillFetches today lookback (StoreResult.ok stored) resp) ∧
    List.Pairwise (· < ·)
      ((backfillFetches today lookback (StoreResult.ok stored) resp).map
        Prod.fst) ∧
    (∀ d, d ∈ (backfillFetches today lookback (StoreResult.ok stored)
        resp).map Prod.fst ↔
      d ∈ dateWindow today lookback ∧
        d ∉ presentDates (StoreResult.ok stored) (today - lookback)) ∧
    (∀ d ∈ (backfillFetches today lookback (StoreResult.ok stored)
        resp).map Prod.fst,
      ((backfillFetches today lookback (StoreResult.ok stored) resp).map
        Prod.fst).count d = 1) ∧
    (∀ d ∈ presentDates (StoreResult.ok stored) (today - lookback),
      d ∉ (backfillFetches today lookback (StoreResult.ok stored)
        resp).map Prod.fst) ∧
    (∀ p ∈ backfillFetches today lookback (StoreResult.ok stored) resp,
      p.2 = fetch_daily_data (resp p.1)) := by
  classical
  have hwin : List.Pairwise (· < ·) (dateWindow today lookback) :=
    List.pairwise_lt_range' _ _
  have hflt : List.Pairwise (· < ·)
      ((dateWindow today lookback).filter
        (fun d => !((presentDates (StoreResult.ok stored)
          (today - lookback)).contains d))) :=
    hwin.filter _
  have hms : sortNat ((dateWindow today lookback).filter
      (fun d => !((presentDates (StoreResult.ok stored)
        (today - lookback)).contains d))) =
      (dateWindow today lookback).filter
        (fun d => !((presentDates (StoreResult.ok stored)
          (today - lookback)).contains d)) :=
    sortNat_eq_self (hflt.imp le_of_lt)
  have hbf : backfillFetches today lookback (StoreResult.ok stored) resp =
      ((dateWindow today lookback).filter
        (fun d => !((presentDates (StoreResult.ok stored)
          (today - lookback)).contains d))).map
        (fun d => (d, fetch_daily_data (resp d))) := by
    simp only [backfillFetches, backfill_data, hms]
  have hfst : (((dateWindow today lookback).filter
      (fun d => !((presentDates (StoreResult.ok stored)
        (today - lookback)).contains d))).map
      (fun d => (d, fetch_daily_data (resp d)))).map Prod.fst =
      (dateWindow today lookback).filter
        (fun d => !((presentDates (StoreResult.ok stored)
          (today - lookback)).contains d)) :=
    map_fst_pair _ _
  refine ⟨?_, ?_, ?_, ?_, ?_, ?_⟩
  · simp only [backfill_data, hbf, hms]
  · rw [hbf, hfst]
    exact hflt
  · intro d
    rw [hbf, hfst, List.mem_filter]
    simp
  · intro d hd
    rw [hbf, hfst] at hd ⊢
    exact List.count_eq_one_of_mem (hflt.imp Nat.ne_of_lt) hd
  · intro d hd
    rw [hbf, hfst, List.mem_filter]
    simp only [Bool.not_eq_eq_eq_not, Bool.not_true, not_and]
    intro _
    simp [List.contains, hd]
  · intro p hp
    rw [hbf] at hp
    rcases List.mem_map.1 hp with ⟨d, _, rfl⟩
    rfl

/-- Concrete instance of C1: window `[7,10]`, store holding `{8}`;
the pass fetches exactly 7, 9, 10 ascending. -/
theorem C1_backfill_fetches_exactly_missing_witness :
    backfill_data 10 3 (StoreResult.ok [8]) (fun _ _ => FetchOutcome.empty) =
      .ok (backfillFetches 10 3 (StoreResult.ok [8])
        (fun _ _ => FetchOutcome.empty)) ∧
    List.Pairwise (· < ·)
      ((backfillFetches 10 3 (StoreResult.ok [8])
        (fun _ _ => FetchOutcome.empty)).map Prod.fst) ∧
    (backfillFetches 10 3 (StoreResult.ok [8])
      (fun _ _ => FetchOutcome.empty)).map Prod.fst = [7, 9, 10] := by
  have h := C1_backfill_fetches_exactly_missing 10 3 [8]
    (fun _ _ => FetchOutcome.empty) (by decide)
  exact ⟨h.1, h.2.1, by decide⟩

/-- C8, counterexample.  The claim says a reconciliation pass raises to
its caller exactly when the store presence query fails.  Here the
presence query fails (`StoreResult.err`) and yet the pass returns
normally: the caught exception is logged, the store is assumed empty,
and every window date is fetched (each fetch here exhausting its three
attempts). -/
theorem C8_counterexample :
    backfill_data 10 3 StoreResult.err (fun _ _ => FetchOutcome.err) =
      .ok ([7, 8, 9, 10].map (fun d =>
        (d, [FetchEvent.call 0, .sleep5, .call 1, .sleep5, .call 2]))) := by
  rfl

/-- C8, amended.  A reconciliation pass never raises to its caller: the
presence-query failure is caught and treated as an empty store — the
pass then fetches every candidate-window date — and individual dates'
fetch failures never abort the pass (the fetch client returns a trace
for every missing date no matter the upstream outcome). -/
theorem C8_amended_never_raises (today lookback : ℕ) (store : StoreResult)
    (resp : ℕ → ℕ → FetchOutcome) :
    backfill_data today lookback store resp =
      .ok (backfillFetches today lookback store resp) ∧
    (store = StoreResult.err →
      (backfillFetches today lookback store resp).map Prod.fst =
        dateWindow today lookback) := by
  refine ⟨rfl, fun h => ?_⟩
  subst h
  have hwin : List.Pairwise (· < ·) (dateWindow today lookback) :=
    List.pairwise_lt_range' _ _
  have hflt : (dateWindow today lookback).filter
      (fun d => !((presentDates StoreResult.err
        (today - lookback)).contains d)) = dateWindow today lookback :=
    List.filter_eq_self.2 (fun a _ => rfl)
  have hbf : backfillFetches today lookback StoreResult.err resp =
      (dateWindow today lookback).map
        (fun d => (d, fetch_daily_data (resp d))) := by
    simp only [backfillFetches, backfill_data, hflt,
      sortNat_eq_self (hwin.imp le_of_lt)]
  rw [hbf, map_fst_pair]

/-- Concrete instance of the amended C8: every input, including a store
failure combined with an always-failing upstream, returns normally. -/
theorem C8_amended_never_raises_witness :
    backfill_data 9 2 StoreResult.err (fun _ _ => FetchOutcome.err) =
      .ok (backfillFetches 9 2 StoreResult.err
        (fun _ _ => FetchOutcome.err)) ∧
    (backfillFetches 9 2 StoreResult.err
      (fun _ _ => FetchOutcome.err)).map Prod.fst = dateWindow 9 2 := by
  have h := C8_amended_never_raises 9 2 StoreResult.err
    (fun _ _ => FetchOutcome.err)
  exact ⟨h.1, h.2 rfl⟩

/-! ## Fetch retry discipline (claim C7) -/

/-- C7.  A single fetch calls upstream at least once and at most 3
times, with exactly one 5-second wait between consecutive attempts
(sleep count = call count − 1); an empty-but-successful first response
ends the fetch immediately after one call with no retry and no write;
and when all 3 attempts error the fetch still returns an ordinary trace
(3 calls, the 2 inter-attempt waits, no write, no exception). -/
theorem C7_fetch_retry_bound (resp : ℕ → FetchOutcome) :
    1 ≤ callCount (fetch_daily_data resp) ∧
    callCount (fetch_daily_data resp) ≤ 3 ∧
    sleepCount (fetch_daily_data resp) + 1 = callCount (fetch_daily_data resp) ∧
    (resp 0 = .empty → fetch_daily_data resp = [.call 0]) ∧
    ((∀ a, resp a = .err) →
      fetch_daily_data resp =
        [.call 0, .sleep5, .call 1, .sleep5, .call 2]) := by
  rcases h0 : resp 0 with _ | _ | rows0 <;>
    rcases h1 : resp 1 with _ | _ | rows1 <;>
      rcases h2 : resp 2 with _ | _ | rows2 <;>
        refine ⟨?_, ?_, ?_, fun h => ?_, fun h => ?_⟩ <;>
          simp_all [fetch_daily_data, fetchFrom, callCount, sleepCount,
            isCall, isSleep]

/-- Concrete instance of C7 at an always-failing upstream: three calls,
two waits, normal return with no write. -/
theorem C7_fetch_retry_bound_witness :
    callCount (fetch_daily_data (fun _ => FetchOutcome.err)) ≤ 3 ∧
    fetch_daily_data (fun _ => FetchOutcome.err) =
      [.call 0, .sleep5, .call 1, .sleep5, .call 2] := by
  have h := C7_fetch_retry_bound (fun _ => FetchOutcome.err)
  exact ⟨h.2.1, h.2.2.2.2 (fun _ => rfl)⟩

/-! ## Trailing-window minimum volume (claim C5) -/

/-- C5.  At every position `i` of an instrument's date-sorted bar
series, the `prev_vol_min_20` column equals the minimum of the volumes
at the 20 positions immediately preceding `i` — the current observation
excluded — and is NaN when fewer than 20 preceding observations exist. -/
theorem C5_prev_vol_min_excludes_current (bars : List Bar) (i : ℕ)
    (h : i < bars.length) :
    ((indicatorsGroup bars).getD i default).prev_vol_min_20 =
      if 20 ≤ i then
        some (listMin ((List.range 20).map
          (fun j => (bars.getD (i - 20 + j) default).vol)))
      else none := by
  have hfield : (rowAt bars i).prev_vol_min_20 =
      rollingCell listMin 20 (shiftCell (volOpt bars)) i := rfl
  rw [indicatorsGroup_getD h, hfield]
  exact prevVolMin_eq h

set_option maxRecDepth 4000 in
/-- Concrete instance of C5 on `frame69`: at position 21 the column is
the minimum of the volumes at positions 1–20; at position 19 it is NaN. -/
theorem C5_prev_vol_min_excludes_current_witness :
    21 < frame69.length ∧
    ((indicatorsGroup frame69).getD 21 default).prev_vol_min_20 = some 100 ∧
    ((indicatorsGroup frame69).getD 19 default).prev_vol_min_20 = none := by
  refine ⟨by decide, ?_, ?_⟩
  · rw [C5_prev_vol_min_excludes_current frame69 21 (by decide)]
    decide
  · rw [C5_prev_vol_min_excludes_current frame69 19 (by decide)]
    decide

/-! ## Gate short-circuit (claim C4) -/

/-- C4.  If either disqualifying gate fails — the candle is not green
(`close >= open`), or the prior-20-day minimum volume is available and
the day's volume is at least 80 % of it — then `calculate_scores`
returns total 0 with a short disqualification reason and computes no
sub-score whatsoever, regardless of every other metric of the row. -/
theorem C4_gate_short_circuit (r : Row)
    (h : r.open_ ≤ r.close ∨
      ∃ pv, r.prev_vol_min_20 = some pv ∧ pv * (4/5) ≤ r.vol) :
    (calculate_scores r).total = 0 ∧
    (calculate_scores r).reason.isSome = true ∧
    (calculate_scores r).volScore = none ∧
    (calculate_scores r).dropScore = none ∧
    (calculate_scores r).coreScore = none ∧
    (calculate_scores r).trendScore = none ∧
    (calculate_scores r).volatilityScore = none ∧
    (calculate_scores r).priceScore = none ∧
    (calculate_scores r).extraScore = none ∧
    (calculate_scores r).ratioVal = none := by
  rcases h with h1 | ⟨pv, hpv, h2⟩
  · simp [calculate_scores, if_pos h1, Scores.veto]
  · by_cases h1 : r.open_ ≤ r.close
    · simp [calculate_scores, if_pos h1, Scores.veto]
    · simp [calculate_scores, if_neg h1, hpv, if_pos h2, Scores.veto]

/-- Concrete instance of C4: a row with every favorable metric but a red
candle gate failure reports 0 with a reason and no sub-scores. -/
theorem C4_gate_short_circuit_witness :
    (calculate_scores
      { ts_code := "X", trade_date := 5, open_ := 10, high := 11, low := 9,
        close := 10, vol := 10, ma_60 := some 20, vol_ma20 := some 100,
        prev_vol_min_20 := some 100, amplitude := some 1, amp_ma15 := some 1,
        pct_change := some (-1), distance_ma60 := some (-50),
        vol_ratio := some (1/10) }).total = 0 ∧
    (calculate_scores
      { ts_code := "X", trade_date := 5, open_ := 10, high := 11, low := 9,
        close := 10, vol := 10, ma_60 := some 20, vol_ma20 := some 100,
        prev_vol_min_20 := some 100, amplitude := some 1, amp_ma15 := some 1,
        pct_change := some (-1), distance_ma60 := some (-50),
        vol_ratio := some (1/10) }).reason.isSome = true := by
  have h := C4_gate_short_circuit
    { ts_code := "X", trade_date := 5, open_ := 10, high := 11, low := 9,
      close := 10, vol := 10, ma_60 := some 20, vol_ma20 := some 100,
      prev_vol_min_20 := some 100, amplitude := some 1, amp_ma15 := some 1,
      pct_change := some (-1), distance_ma60 := some (-50),
      vol_ratio := some (1/10) } (Or.inl (by norm_num))
  exact ⟨h.1, h.2.1⟩

end SLXG
